import Mathlib

/-!
Verification of the statistics calculator (`src/statistics_calculator.c`).

The C program computes mean, median and mode of an `int` array and renders a
textual report.  This file gives a shallow embedding of the program and proves
or refutes the specification claims about it.

Modelling conventions:
* A sample (`int* arr, int size`) is a `List Int`.  The predicate
  `ValidSample` records the domain constraints of the C types: every element
  fits in a signed 32-bit `int` and the length fits in an `int`.
* `double` results are modelled as `ℚ`; the final division of an integer
  quantity by a count (or by `2.0`) is taken exact, which matches the spec's
  reading "exactly, within floating-point rounding of the final division".
* Signed machine arithmetic is modelled with explicit two's-complement
  wrapping: `wrap32` for `int` (the comparator's subtraction and the median's
  middle-element addition) and `wrap64` for `long` (the mean's accumulator,
  which is 64 bits wide on the LP64 platform the program targets).
* `qsort` with the program's `compare` callback is modelled by `qsortModel`,
  an insertion sort driven by exactly that comparator.  Whenever the
  comparator is a genuine total order on the input's elements (in particular
  whenever all pairwise differences fit in 32 bits, `PairFits`), any
  conforming `qsort` produces the same unique comparator-sorted permutation,
  so the model is canonical there.
* `printf` output is modelled as a returned `String`; `%.2f` is modelled by
  `fmt2`, rounding the rational value to two decimal places.
-/

namespace StatsCalc

/-- Two's-complement wrap of an integer into the signed 32-bit range,
modelling arithmetic on C `int`. -/
def wrap32 (d : Int) : Int := (d + 2^31) % 2^32 - 2^31

/-- Two's-complement wrap of an integer into the signed 64-bit range,
modelling arithmetic on C `long` (LP64). -/
def wrap64 (d : Int) : Int := (d + 2^63) % 2^64 - 2^63

/-- The value fits in a signed 32-bit integer. -/
def fits32 (d : Int) : Prop := -(2^31) ≤ d ∧ d < 2^31

instance : DecidablePred fits32 := fun _ => instDecidableAnd

/-- Every pairwise difference of elements of the sample fits in a signed
32-bit `int`; under this precondition the program's subtracting comparator
computes the true numeric order. -/
def PairFits (l : List Int) : Prop := ∀ a ∈ l, ∀ b ∈ l, fits32 (a - b)

instance : DecidablePred PairFits := fun l =>
  inferInstanceAs (Decidable (∀ a ∈ l, ∀ b ∈ l, fits32 (a - b)))

/-- Domain constraints imposed by the C types: the elements are `int` values
and the size is a nonnegative `int`. -/
def ValidSample (l : List Int) : Prop :=
  (∀ x ∈ l, fits32 x) ∧ l.length ≤ 2^31 - 1

instance : DecidablePred ValidSample := fun _ => instDecidableAnd

/-- The mean's accumulation loop: `long sum = 0; for (...) sum += arr[i];`,
with each `long` addition wrapping at 64 bits. -/
def sumLong (arr : List Int) : Int := arr.foldl (fun s x => wrap64 (s + x)) 0

/-- `calculate_mean` from the source: returns `0.0` on the empty array,
otherwise accumulates the sum in a `long` and divides by the size. -/
def calculate_mean (arr : List Int) : ℚ :=
  if arr.length = 0 then 0
  else (sumLong arr : ℚ) / (arr.length : ℚ)

/-- The qsort callback `compare`: `return (*(int*)a - *(int*)b);`, an `int`
subtraction that wraps at 32 bits. -/
def compare (a b : Int) : Int := wrap32 (a - b)

/-- The non-strict order induced by the comparator (`compare a b <= 0`). -/
def cmpLe (a b : Int) : Bool := decide (compare a b ≤ 0)

/-- One insertion step of the `qsort` model, placing `a` before the first
element it compares less-or-equal to. -/
def insertC (a : Int) : List Int → List Int
  | [] => [a]
  | b :: t => if cmpLe a b then a :: b :: t else b :: insertC a t

/-- Model of `qsort(buf, size, sizeof(int), compare)`: an insertion sort
driven by the program's comparator.  Whenever the comparator is a total
order on the elements this is the unique comparator-sorted permutation that
any conforming `qsort` must produce. -/
def qsortModel (l : List Int) : List Int := l.foldr insertC []

/-- `calculate_median` from the source: `0.0` on the empty array, otherwise
sort a private copy and take the middle element (odd size) or the average of
the two middle elements (even size).  The sum of the two middle elements is
an `int` addition, hence wraps at 32 bits, and is then divided by `2.0`. -/
def calculate_median (arr : List Int) : ℚ :=
  if arr.length = 0 then 0
  else
    let sorted_arr := qsortModel arr
    let size := arr.length
    if size % 2 = 0 then
      (wrap32 (sorted_arr.getD (size / 2 - 1) 0 + sorted_arr.getD (size / 2) 0) : ℚ) / 2
    else
      (sorted_arr.getD (size / 2) 0 : ℚ)

/-- The `ModeResult` struct: the mode values, their number (`count`), and the
shared highest occurrence count (`frequency`). -/
structure ModeResult where
  modes : List Int
  count : Nat
  frequency : Nat
deriving DecidableEq

/-- First pass of `calculate_mode`: the loop over `sorted_arr[1..]` tracking
`current_value`, `current_frequency` and `max_frequency`, including the
explicit final-run check after the loop. -/
def pass1 (curv : Int) (curf maxf : Nat) : List Int → Nat
  | [] => max maxf curf
  | x :: rest =>
    if x = curv then pass1 curv (curf + 1) maxf rest
    else pass1 x 1 (max maxf curf) rest

/-- Second pass of `calculate_mode`: collect the value of every maximal run
whose length equals `maxf`, including the explicit final-run check. -/
def pass2 (curv : Int) (curf maxf : Nat) : List Int → List Int
  | [] => if curf = maxf then [curv] else []
  | x :: rest =>
    if x = curv then pass2 curv (curf + 1) maxf rest
    else (if curf = maxf then [curv] else []) ++ pass2 x 1 maxf rest

/-- `calculate_mode` from the source: zero result on the empty array,
otherwise sort a private copy, find the maximum run length (pass 1), collect
all run values attaining it (pass 2), and package them with the frequency. -/
def calculate_mode (arr : List Int) : ModeResult :=
  if arr.length = 0 then ⟨[], 0, 0⟩
  else
    match qsortModel arr with
    | [] => ⟨[], 0, 0⟩
    | x :: rest =>
      let maxFreq := pass1 x 1 1 rest
      let ms := pass2 x 1 maxFreq rest
      ⟨ms, ms.length, maxFreq⟩

/-- State-passing version of `calculate_mean` for the frame claims: the pair
is (returned value, caller's array after the call).  The loop only reads
`arr`, so the array component is returned untouched. -/
def calculate_mean_mem (arr : List Int) : ℚ × List Int :=
  if arr.length = 0 then (0, arr)
  else ((sumLong arr : ℚ) / (arr.length : ℚ), arr)

/-- State-passing version of `calculate_median`: `malloc` + `memcpy` produce
the private copy `arr.take arr.length`, `qsort` runs on that copy only, and
the caller's array is returned unchanged. -/
def calculate_median_mem (arr : List Int) : ℚ × List Int :=
  if arr.length = 0 then (0, arr)
  else
    let sorted_arr := qsortModel (arr.take arr.length)
    let size := arr.length
    let median : ℚ :=
      if size % 2 = 0 then
        (wrap32 (sorted_arr.getD (size / 2 - 1) 0 + sorted_arr.getD (size / 2) 0) : ℚ) / 2
      else
        (sorted_arr.getD (size / 2) 0 : ℚ)
    (median, arr)

/-- State-passing version of `calculate_mode`: the sort and both passes work
on the private copy `arr.take arr.length`; the caller's array is returned
unchanged. -/
def calculate_mode_mem (arr : List Int) : ModeResult × List Int :=
  if arr.length = 0 then (⟨[], 0, 0⟩, arr)
  else
    match qsortModel (arr.take arr.length) with
    | [] => (⟨[], 0, 0⟩, arr)
    | x :: rest =>
      let maxFreq := pass1 x 1 1 rest
      let ms := pass2 x 1 maxFreq rest
      (⟨ms, ms.length, maxFreq⟩, arr)

/-- Model of `printf("%.2f", x)`: the value rounded to two decimal places.
The hundredths integer is computed from the rational's numerator and
denominator; `fmt2_hundredths_eq_round` below proves it equals
`round (q * 100)`. -/
def fmt2 (q : ℚ) : String :=
  let n : Int := (200 * q.num + (q.den : Int)) / (2 * (q.den : Int))
  let m := n.natAbs
  (if n < 0 then "-" else "") ++ toString (m / 100) ++ "." ++
    (if m % 100 < 10 then "0" else "") ++ toString (m % 100)

/-- `print_array` from the source: the bracketed, comma-separated literal. -/
def print_array (arr : List Int) : String :=
  "[" ++ String.intercalate ", " (arr.map toString) ++ "]"

/-- `print_statistics` from the source, with the printed text returned as a
string: the array literal; for the empty array the distinct message and an
early return; otherwise the Mean, Median and Mode lines (single mode without
brackets, several modes as a bracketed list) and a final blank line. -/
def print_statistics (arr : List Int) : String :=
  let header := "Array: " ++ print_array arr ++ "\n"
  if arr.length = 0 then
    header ++ "Cannot calculate statistics for empty array.\n"
  else
    let mode_result := calculate_mode arr
    let modeLine :=
      if mode_result.count = 1 then
        toString (mode_result.modes.getD 0 0) ++ " (frequency: " ++
          toString mode_result.frequency ++ ")\n"
      else
        "[" ++ String.intercalate ", " (mode_result.modes.map toString) ++
          "] (frequency: " ++ toString mode_result.frequency ++ " each)\n"
    header ++ "Mean: " ++ fmt2 (calculate_mean arr) ++ "\n" ++
      "Median: " ++ fmt2 (calculate_median arr) ++ "\n" ++
      "Mode: " ++ modeLine ++ "\n"

/-- Specification-side recursion: the largest multiplicity of any value in
the list (`0` for the empty list). -/
def maxMult : List Int → Nat
  | [] => 0
  | x :: t => max ((x :: t).count x) (maxMult (t.filter (fun y => y != x)))
termination_by l => l.length
decreasing_by
  simp only [List.length_cons]
  exact Nat.lt_succ_of_le (List.length_filter_le _ _)

/-- Specification-side recursion: the distinct values of the list whose
multiplicity equals `m`, in order of first appearance. -/
def collectModes (m : Nat) : List Int → List Int
  | [] => []
  | x :: t =>
    (if (x :: t).count x = m then [x] else []) ++
      collectModes m (t.filter (fun y => y != x))
termination_by l => l.length
decreasing_by
  simp only [List.length_cons]
  exact Nat.lt_succ_of_le (List.length_filter_le _ _)

/-! ### Wrapping arithmetic -/

lemma wrap32_eq_of_fits {d : Int} (h : fits32 d) : wrap32 d = d := by
  obtain ⟨h1, h2⟩ := h
  unfold wrap32
  rw [Int.emod_eq_of_lt (by omega) (by omega)]
  omega

lemma wrap64_eq_of_range {d : Int} (h1 : -(2^63) ≤ d) (h2 : d < 2^63) :
    wrap64 d = d := by
  unfold wrap64
  rw [Int.emod_eq_of_lt (by omega) (by omega)]
  omega

lemma wrap64_add_mul (x k : Int) : wrap64 (x + 2^64 * k) = wrap64 x := by
  unfold wrap64
  rw [show x + 2^64 * k + 2^63 = x + 2^63 + 2^64 * k from by ring,
    Int.add_mul_emod_self_left]

lemma wrap64_add_left (a b : Int) : wrap64 (wrap64 a + b) = wrap64 (a + b) := by
  have hq : wrap64 a = a + b + 2^64 * (-((a + 2^63) / 2^64)) - b := by
    unfold wrap64
    rw [Int.emod_def]
    ring
  rw [hq, show a + b + 2^64 * (-((a + 2^63) / 2^64)) - b + b
      = a + b + 2^64 * (-((a + 2^63) / 2^64)) from by ring,
    wrap64_add_mul]

lemma sumLong_eq_wrap64_sum (l : List Int) : sumLong l = wrap64 l.sum := by
  have key : ∀ (t : List Int) (s : Int),
      t.foldl (fun acc x => wrap64 (acc + x)) (wrap64 s) = wrap64 (s + t.sum) := by
    intro t
    induction t with
    | nil => intro s; simp
    | cons x rest ih =>
      intro s
      have h1 : (x :: rest).foldl (fun acc y => wrap64 (acc + y)) (wrap64 s)
          = rest.foldl (fun acc y => wrap64 (acc + y)) (wrap64 (wrap64 s + x)) := rfl
      rw [h1, wrap64_add_left, ih (s + x), List.sum_cons]
      ring_nf
  have h0 : wrap64 0 = 0 := by
    unfold wrap64
    norm_num
  have := key l 0
  rw [h0] at this
  unfold sumLong
  rw [this]
  ring_nf

lemma sum_bounds (l : List Int) (h : ∀ x ∈ l, fits32 x) :
    -((l.length : Int) * 2^31) ≤ l.sum ∧ l.sum ≤ (l.length : Int) * 2^31 := by
  induction l with
  | nil => simp
  | cons x t ih =>
    have hx := h x (List.mem_cons_self x t)
    have ht := ih (fun y hy => h y (List.mem_cons_of_mem x hy))
    obtain ⟨hx1, hx2⟩ := hx
    obtain ⟨ht1, ht2⟩ := ht
    simp only [List.sum_cons, List.length_cons]
    push_cast
    constructor <;> omega

lemma sumLong_eq_sum (l : List Int) (h : ValidSample l) : sumLong l = l.sum := by
  obtain ⟨h1, h2⟩ := h
  obtain ⟨hb1, hb2⟩ := sum_bounds l h1
  have hlen : (l.length : Int) ≤ 2^31 - 1 := by omega
  have hlen0 : (0 : Int) ≤ (l.length : Int) := by positivity
  rw [sumLong_eq_wrap64_sum, wrap64_eq_of_range (by omega) (by omega)]

/-! ### The comparator and the sort model -/

lemma compare_eq_of_fits {a b : Int} (h : fits32 (a - b)) : compare a b = a - b :=
  wrap32_eq_of_fits h

lemma cmpLe_iff_le {a b : Int} (h : fits32 (a - b)) : cmpLe a b = true ↔ a ≤ b := by
  unfold cmpLe
  rw [decide_eq_true_eq, compare_eq_of_fits h]
  omega

lemma insertC_perm (a : Int) (l : List Int) : (insertC a l).Perm (a :: l) := by
  induction l with
  | nil => exact List.Perm.refl _
  | cons b t ih =>
    unfold insertC
    by_cases h : cmpLe a b
    · rw [if_pos h]
    · rw [if_neg h]
      exact (ih.cons b).trans (List.Perm.swap a b t)

lemma qsortModel_perm (l : List Int) : (qsortModel l).Perm l := by
  induction l with
  | nil => exact List.Perm.refl _
  | cons a t ih =>
    have h1 : qsortModel (a :: t) = insertC a (qsortModel t) := rfl
    rw [h1]
    exact (insertC_perm a (qsortModel t)).trans (ih.cons a)

lemma mem_qsortModel {a : Int} {l : List Int} : a ∈ qsortModel l ↔ a ∈ l :=
  (qsortModel_perm l).mem_iff

lemma insertC_sorted (a : Int) (L : List Int) (hs : L.Sorted (· ≤ ·))
    (hf1 : ∀ b ∈ L, fits32 (a - b)) (hf2 : ∀ b ∈ L, fits32 (b - a)) :
    (insertC a L).Sorted (· ≤ ·) := by
  induction L with
  | nil => simp [insertC]
  | cons b t ih =>
    rw [List.sorted_cons] at hs
    obtain ⟨hb, ht⟩ := hs
    unfold insertC
    by_cases h : cmpLe a b
    · rw [if_pos h]
      have hab : a ≤ b := (cmpLe_iff_le (hf1 b (List.mem_cons_self b t))).1 h
      rw [List.sorted_cons]
      refine ⟨?_, List.sorted_cons.2 ⟨hb, ht⟩⟩
      intro c hc
      rcases List.mem_cons.1 hc with rfl | hct
      · exact hab
      · exact le_trans hab (hb c hct)
    · rw [if_neg h]
      have hba : b ≤ a := by
        have hle := cmpLe_iff_le (hf1 b (List.mem_cons_self b t))
        have : ¬ a ≤ b := fun hc => h (hle.2 hc)
        omega
      rw [List.sorted_cons]
      refine ⟨?_, ih ht (fun c hc => hf1 c (List.mem_cons_of_mem b hc))
        (fun c hc => hf2 c (List.mem_cons_of_mem b hc))⟩
      intro c hc
      rcases List.mem_cons.1 ((insertC_perm a t).mem_iff.1 hc) with rfl | hct
      · exact hba
      · exact hb c hct

lemma pairFits_of_cons {a : Int} {t : List Int} (h : PairFits (a :: t)) :
    PairFits t := fun x hx y hy =>
  h x (List.mem_cons_of_mem a hx) y (List.mem_cons_of_mem a hy)

lemma qsortModel_sorted (l : List Int) (hfit : PairFits l) :
    (qsortModel l).Sorted (· ≤ ·) := by
  induction l with
  | nil => simp [qsortModel]
  | cons a t ih =>
    have h1 : qsortModel (a :: t) = insertC a (qsortModel t) := rfl
    rw [h1]
    refine insertC_sorted a (qsortModel t) (ih (pairFits_of_cons hfit)) ?_ ?_
    · intro b hb
      exact hfit a (List.mem_cons_self a t) b
        (List.mem_cons_of_mem a (mem_qsortModel.1 hb))
    · intro b hb
      exact hfit b (List.mem_cons_of_mem a (mem_qsortModel.1 hb)) a
        (List.mem_cons_self a t)

/-! ### Multiplicity lemmas -/

lemma count_filter_ne {a x : Int} (t : List Int) (h : a ≠ x) :
    (t.filter (fun y => y != x)).count a = t.count a :=
  @List.count_filter Int _ _ (fun y => y != x) a t (by simp [h])

lemma mem_filter_ne {a x : Int} {t : List Int} :
    a ∈ t.filter (fun y => y != x) ↔ a ∈ t ∧ a ≠ x := by
  simp [List.mem_filter]

lemma maxMult_nil : maxMult [] = 0 := by simp [maxMult]

lemma maxMult_cons (x : Int) (t : List Int) :
    maxMult (x :: t)
      = max ((x :: t).count x) (maxMult (t.filter (fun y => y != x))) := by
  rw [maxMult]

lemma collectModes_nil (m : Nat) : collectModes m [] = [] := by simp [collectModes]

lemma collectModes_cons (m : Nat) (x : Int) (t : List Int) :
    collectModes m (x :: t)
      = (if (x :: t).count x = m then [x] else [])
          ++ collectModes m (t.filter (fun y => y != x)) := by
  rw [collectModes]

lemma count_le_maxMult (l : List Int) (a : Int) : l.count a ≤ maxMult l := by
  induction l using maxMult.induct with
  | case1 => simp [maxMult_nil]
  | case2 x t ih =>
    rw [maxMult_cons]
    by_cases h : a = x
    · subst h
      exact le_max_left _ _
    · have hc : (x :: t).count a = (t.filter (fun y => y != x)).count a := by
        rw [count_filter_ne t h, List.count_cons]
        simp [Ne.symm h]
      rw [hc]
      exact le_trans ih (le_max_right _ _)

lemma maxMult_achieved (l : List Int) (hne : l ≠ []) :
    ∃ a ∈ l, l.count a = maxMult l := by
  induction l using maxMult.induct with
  | case1 => exact absurd rfl hne
  | case2 x t ih =>
    rw [maxMult_cons]
    by_cases hM : maxMult (t.filter (fun y => y != x)) ≤ (x :: t).count x
    · exact ⟨x, List.mem_cons_self x t, (Nat.max_eq_left hM).symm⟩
    · push_neg at hM
      have hx1 : 1 ≤ (x :: t).count x := by
        rw [List.count_cons_self]
        omega
      have hne2 : t.filter (fun y => y != x) ≠ [] := by
        intro he
        rw [he, maxMult_nil] at hM
        omega
      obtain ⟨a, ha, hca⟩ := ih hne2
      obtain ⟨hat, hax⟩ := mem_filter_ne.1 ha
      refine ⟨a, List.mem_cons_of_mem x hat, ?_⟩
      have h1 : (x :: t).count a = (t.filter (fun y => y != x)).count a := by
        rw [count_filter_ne t hax, List.count_cons]
        simp [Ne.symm hax]
      rw [h1, hca, Nat.max_eq_right (le_of_lt hM)]

lemma mem_collectModes {m : Nat} {l : List Int} {a : Int} :
    a ∈ collectModes m l ↔ a ∈ l ∧ l.count a = m := by
  induction l using maxMult.induct with
  | case1 => simp [collectModes_nil]
  | case2 x t ih =>
    rw [collectModes_cons, List.mem_append]
    by_cases h : a = x
    · subst h
      have hnr : a ∉ collectModes m (t.filter (fun y => y != a)) := fun hmem =>
        (mem_filter_ne.1 (ih.1 hmem).1).2 rfl
      by_cases hc : (a :: t).count a = m
      · rw [if_pos hc]
        exact ⟨fun _ => ⟨List.mem_cons_self a t, hc⟩,
          fun _ => Or.inl (List.mem_singleton.2 rfl)⟩
      · rw [if_neg hc]
        constructor
        · intro hor
          rcases hor with hin | hin
          · exact absurd hin (List.not_mem_nil a)
          · exact absurd hin hnr
        · intro hand
          exact absurd hand.2 hc
    · have hcnt : (x :: t).count a = (t.filter (fun y => y != x)).count a := by
        rw [count_filter_ne t h, List.count_cons]
        simp [Ne.symm h]
      constructor
      · intro hor
        rcases hor with hin | hin
        · rcases List.mem_singleton.1 (by
            rcases Decidable.em ((x :: t).count x = m) with hc | hc
            · rw [if_pos hc] at hin
              exact hin
            · rw [if_neg hc] at hin
              exact absurd hin (List.not_mem_nil a)) with rfl
          exact absurd rfl h
        · obtain ⟨ha, hca⟩ := ih.1 hin
          obtain ⟨hat, _⟩ := mem_filter_ne.1 ha
          exact ⟨List.mem_cons_of_mem x hat, by rw [hcnt]; exact hca⟩
      · intro ⟨hal, hca⟩
        have hat : a ∈ t := by
          rcases List.mem_cons.1 hal with rfl | hx
          · exact absurd rfl h
          · exact hx
        refine Or.inr (ih.2 ⟨mem_filter_ne.2 ⟨hat, h⟩, ?_⟩)
        rw [← hcnt]
        exact hca

lemma collectModes_sorted {m : Nat} {l : List Int} (hs : l.Sorted (· ≤ ·)) :
    (collectModes m l).Pairwise (· < ·) := by
  induction l using maxMult.induct with
  | case1 => simp [collectModes_nil]
  | case2 x t ih =>
    rw [List.sorted_cons] at hs
    obtain ⟨hb, ht⟩ := hs
    have hts : (t.filter (fun y => y != x)).Sorted (· ≤ ·) :=
      ht.filter (fun y => y != x)
    have ihs := ih hts
    rw [collectModes_cons]
    by_cases hc : (x :: t).count x = m
    · rw [if_pos hc, List.singleton_append, List.pairwise_cons]
      refine ⟨?_, ihs⟩
      intro b hbmem
      obtain ⟨hbt, hbx⟩ := mem_filter_ne.1 (mem_collectModes.1 hbmem).1
      exact lt_of_le_of_ne (hb b hbt) (Ne.symm hbx)
    · rw [if_neg hc, List.nil_append]
      exact ihs

/-! ### Characterizing the two mode passes on a sorted copy -/

lemma pass1_eq (s : List Int) :
    ∀ (curv : Int) (curf maxf : Nat), s.Sorted (· ≤ ·) → (∀ y ∈ s, curv ≤ y) →
      pass1 curv curf maxf s
        = max maxf (max (curf + s.count curv)
            (maxMult (s.filter (fun y => y != curv)))) := by
  induction s with
  | nil =>
    intro curv curf maxf _ _
    simp [pass1, maxMult_nil]
  | cons x rest ih =>
    intro curv curf maxf hs hcur
    rw [List.sorted_cons] at hs
    obtain ⟨hxr, hsr⟩ := hs
    have hcx : curv ≤ x := hcur x (List.mem_cons_self x rest)
    by_cases hx : x = curv
    · subst hx
      have h1 : pass1 x curf maxf (x :: rest) = pass1 x (curf + 1) maxf rest := by
        simp [pass1]
      rw [h1, ih x (curf + 1) maxf hsr hxr, List.count_cons_self]
      have h2 : (x :: rest).filter (fun y => y != x)
          = rest.filter (fun y => y != x) := by
        simp
      rw [h2]
      omega
    · have hcvx : curv < x := lt_of_le_of_ne hcx (fun e => hx e.symm)
      have hnm : curv ∉ x :: rest := by
        intro hmem
        rcases List.mem_cons.1 hmem with he | hmem2
        · exact hx he.symm
        · exact absurd (hxr curv hmem2) (by omega)
      have h1 : pass1 curv curf maxf (x :: rest) = pass1 x 1 (max maxf curf) rest := by
        simp [pass1, hx]
      rw [h1, ih x 1 (max maxf curf) hsr hxr]
      have h2 : (x :: rest).count curv = 0 := List.count_eq_zero.2 hnm
      have h3 : (x :: rest).filter (fun y => y != curv) = x :: rest :=
        List.filter_eq_self.2 (fun b hbm => by
          simp only [bne_iff_ne, ne_eq, decide_eq_true_eq]
          intro he
          rw [he] at hbm
          exact hnm hbm)
      rw [h2, h3, maxMult_cons, List.count_cons_self]
      omega

lemma pass2_eq (s : List Int) :
    ∀ (curv : Int) (curf m : Nat), s.Sorted (· ≤ ·) → (∀ y ∈ s, curv ≤ y) →
      pass2 curv curf m s
        = (if curf + s.count curv = m then [curv] else [])
            ++ collectModes m (s.filter (fun y => y != curv)) := by
  induction s with
  | nil =>
    intro curv curf m _ _
    simp [pass2, collectModes_nil]
  | cons x rest ih =>
    intro curv curf m hs hcur
    rw [List.sorted_cons] at hs
    obtain ⟨hxr, hsr⟩ := hs
    have hcx : curv ≤ x := hcur x (List.mem_cons_self x rest)
    by_cases hx : x = curv
    · subst hx
      have h1 : pass2 x curf m (x :: rest) = pass2 x (curf + 1) m rest := by
        simp [pass2]
      rw [h1, ih x (curf + 1) m hsr hxr, List.count_cons_self]
      have h2 : (x :: rest).filter (fun y => y != x)
          = rest.filter (fun y => y != x) := by
        simp
      rw [h2]
      have h3 : curf + (rest.count x + 1) = curf + 1 + rest.count x := by omega
      rw [h3]
    · have hcvx : curv < x := lt_of_le_of_ne hcx (fun e => hx e.symm)
      have hnm : curv ∉ x :: rest := by
        intro hmem
        rcases List.mem_cons.1 hmem with he | hmem2
        · exact hx he.symm
        · exact absurd (hxr curv hmem2) (by omega)
      have h1 : pass2 curv curf m (x :: rest)
          = (if curf = m then [curv] else []) ++ pass2 x 1 m rest := by
        simp [pass2, hx]
      rw [h1, ih x 1 m hsr hxr]
      have h2 : (x :: rest).count curv = 0 := List.count_eq_zero.2 hnm
      have h3 : (x :: rest).filter (fun y => y != curv) = x :: rest :=
        List.filter_eq_self.2 (fun b hbm => by
          simp only [bne_iff_ne, ne_eq, decide_eq_true_eq]
          intro he
          rw [he] at hbm
          exact hnm hbm)
      rw [h2, h3, collectModes_cons, List.count_cons_self, Nat.add_comm curf 0,
        Nat.zero_add, Nat.add_comm 1 (rest.count x)]

/-! ### Assembly helpers -/

lemma qsortModel_ne_nil {l : List Int} (hne : l ≠ []) : qsortModel l ≠ [] := by
  intro h
  have hlen := (qsortModel_perm l).length_eq
  rw [h] at hlen
  exact hne (List.length_eq_zero.1 hlen.symm)

lemma qsortModel_eq_sorted (l s : List Int) (hfit : PairFits l) (hp : s.Perm l)
    (hs : s.Sorted (· ≤ ·)) : qsortModel l = s :=
  List.eq_of_perm_of_sorted ((qsortModel_perm l).trans hp.symm)
    (qsortModel_sorted l hfit) hs

lemma calculate_mode_spec (l : List Int) (hfit : PairFits l) (hne : l ≠ []) :
    (calculate_mode l).frequency = maxMult (qsortModel l) ∧
    (calculate_mode l).modes = collectModes (maxMult (qsortModel l)) (qsortModel l) := by
  have hlen : ¬ l.length = 0 := fun h => hne (List.length_eq_zero.1 h)
  obtain ⟨x, rest, hs⟩ := List.exists_cons_of_ne_nil (qsortModel_ne_nil hne)
  have hsorted := qsortModel_sorted l hfit
  rw [hs, List.sorted_cons] at hsorted
  obtain ⟨hxr, hrs⟩ := hsorted
  have hmode : calculate_mode l
      = ⟨pass2 x 1 (pass1 x 1 1 rest) rest,
          (pass2 x 1 (pass1 x 1 1 rest) rest).length, pass1 x 1 1 rest⟩ := by
    unfold calculate_mode
    rw [if_neg hlen, hs]
  have hp1 : pass1 x 1 1 rest = maxMult (qsortModel l) := by
    rw [pass1_eq rest x 1 1 hrs hxr, hs, maxMult_cons, List.count_cons_self]
    omega
  have hp2 : pass2 x 1 (pass1 x 1 1 rest) rest
      = collectModes (maxMult (qsortModel l)) (qsortModel l) := by
    rw [hp1, pass2_eq rest x 1 _ hrs hxr, hs, collectModes_cons,
      List.count_cons_self, Nat.add_comm 1 (rest.count x)]
  rw [hmode]
  exact ⟨hp1, hp2⟩

lemma mode_count_eq_length (l : List Int) :
    (calculate_mode l).count = (calculate_mode l).modes.length := by
  unfold calculate_mode
  by_cases h : l.length = 0
  · rw [if_pos h]
    rfl
  · rw [if_neg h]
    cases hq : qsortModel l with
    | nil => rfl
    | cons x rest => rfl

lemma mean_eq_sum_div_aux (l : List Int) (hv : ValidSample l) (hne : l ≠ []) :
    calculate_mean l = (l.sum : ℚ) / (l.length : ℚ) := by
  unfold calculate_mean
  rw [if_neg (fun h => hne (List.length_eq_zero.1 h)), sumLong_eq_sum l hv]

lemma sum_fits64 (l : List Int) (hv : ValidSample l) :
    -(2^63) ≤ l.sum ∧ l.sum < 2^63 := by
  obtain ⟨h1, h2⟩ := hv
  obtain ⟨hb1, hb2⟩ := sum_bounds l h1
  have hlen : (l.length : Int) ≤ 2^31 - 1 := by omega
  have hlen0 : (0 : Int) ≤ (l.length : Int) := by positivity
  constructor <;> omega

/-! ### Claim theorems -/

/-- C3: for every non-empty sample (of C `int` values), `calculate_mean`
returns the sum of the elements divided by the length, exactly (the final
division being the only rounding point, modelled exactly in `ℚ`). -/
theorem mean_is_sum_div_length (l : List Int) (hv : ValidSample l) (hne : l ≠ []) :
    calculate_mean l = (l.sum : ℚ) / (l.length : ℚ) :=
  mean_eq_sum_div_aux l hv hne

/-- Witness for C3 at the demo sample `[1,2,3,4,5,5,5]`: the mean is 25/7. -/
theorem mean_is_sum_div_length_witness :
    calculate_mean [1, 2, 3, 4, 5, 5, 5] = 25 / 7 := by
  have h := mean_is_sum_div_length [1, 2, 3, 4, 5, 5, 5] (by decide) (by decide)
  rw [h]
  norm_num

/-- C7: the mean accumulates in a signed 64-bit accumulator (`long` on the
LP64 target); for every valid sample the element sum fits in 64 bits, the
wrapped accumulation equals the mathematical sum (no overflow), and the
returned mean is that sum divided by the length. -/
theorem mean_accumulation_exact (l : List Int) (hv : ValidSample l) :
    sumLong l = l.sum ∧ -(2^63) ≤ l.sum ∧ l.sum < 2^63 ∧
      (l ≠ [] → calculate_mean l = (l.sum : ℚ) / (l.length : ℚ)) := by
  obtain ⟨hb1, hb2⟩ := sum_fits64 l hv
  exact ⟨sumLong_eq_sum l hv, hb1, hb2, fun hne => mean_eq_sum_div_aux l hv hne⟩

/-- Witness for C7 at `[3, -4, 5]`. -/
theorem mean_accumulation_exact_witness :
    sumLong [3, -4, 5] = 4 ∧ calculate_mean [3, -4, 5] = 4 / 3 := by
  have h := mean_accumulation_exact [3, -4, 5] (by decide)
  refine ⟨by rw [h.1]; decide, ?_⟩
  rw [h.2.2.2 (by decide)]
  norm_num

/-- C4: on the empty sample the three calculators return their defined
non-error conventions: mean `0.0`, median `0.0`, and a `ModeResult` with no
values and frequency `0`. -/
theorem empty_sample_conventions :
    calculate_mean [] = 0 ∧ calculate_median [] = 0 ∧
      (calculate_mode []).modes = [] ∧ (calculate_mode []).count = 0 ∧
      (calculate_mode []).frequency = 0 :=
  ⟨rfl, rfl, rfl, rfl, rfl⟩

/-- Counterexample to C2 as stated: on `[-2^31, 5, 7]` (already in ascending
order, length 3) the code returns `7`, not the ascending middle element `5`,
because the comparator's subtraction wraps; and on `[2^31-1, 2^31-1]` the
`int` addition of the two middle elements wraps, so the code returns `-1`
instead of the real-number average `2^31-1`. -/
theorem median_claim_counterexample :
    calculate_median [-(2^31), 5, 7] = 7 ∧
    List.Sorted (· ≤ ·) ([-(2^31), 5, 7] : List Int) ∧
    ([-(2^31), 5, 7] : List Int).getD 1 0 = 5 ∧
    (7 : ℚ) ≠ 5 ∧
    calculate_median [2^31 - 1, 2^31 - 1] = -1 ∧
    ((((2^31 - 1 : Int) + (2^31 - 1 : Int) : Int) : ℚ)) / 2 = ((2^31 - 1 : Int) : ℚ) ∧
    (-1 : ℚ) ≠ ((2^31 - 1 : Int) : ℚ) := by
  refine ⟨by decide, by decide, by decide, by norm_num, ?_, by norm_num, by norm_num⟩
  have h2 : calculate_median [2^31 - 1, 2^31 - 1]
      = ((wrap32 ((qsortModel [2^31 - 1, 2^31 - 1]).getD 0 0
          + (qsortModel [2^31 - 1, 2^31 - 1]).getD 1 0) : Int) : ℚ) / 2 := rfl
  rw [h2, show wrap32 ((qsortModel [2^31 - 1, 2^31 - 1]).getD 0 0
    + (qsortModel [2^31 - 1, 2^31 - 1]).getD 1 0) = -2 from by decide]
  norm_num

/-- C2 (amended): when every pairwise difference of sample elements fits in
a signed 32-bit `int` (so the comparator orders correctly) and, for even
lengths, the sum of the two middle elements also fits (so the `int`
addition does not wrap), `calculate_median` returns the middle element of
the ascending-sorted copy for odd length and the exact average of the two
middle elements for even length. -/
theorem median_middle_of_sorted (l s : List Int) (hfit : PairFits l)
    (hp : s.Perm l) (hs : s.Sorted (· ≤ ·)) (hne : l ≠ [])
    (hmid : l.length % 2 = 0 →
      fits32 (s.getD (l.length / 2 - 1) 0 + s.getD (l.length / 2) 0)) :
    calculate_median l =
      if l.length % 2 = 0 then
        ((s.getD (l.length / 2 - 1) 0 + s.getD (l.length / 2) 0 : Int) : ℚ) / 2
      else (s.getD (l.length / 2) 0 : ℚ) := by
  have hq : qsortModel l = s := qsortModel_eq_sorted l s hfit hp hs
  have hlen : ¬ l.length = 0 := fun h => hne (List.length_eq_zero.1 h)
  unfold calculate_median
  rw [if_neg hlen]
  simp only [hq]
  by_cases he : l.length % 2 = 0
  · rw [if_pos he, if_pos he, wrap32_eq_of_fits (hmid he)]
  · rw [if_neg he, if_neg he]

/-- Witness for C2 at `[3, 1, 2]` with sorted copy `[1, 2, 3]`. -/
theorem median_middle_of_sorted_witness : calculate_median [3, 1, 2] = 2 := by
  have h := median_middle_of_sorted [3, 1, 2] [1, 2, 3] (by decide) (by decide)
    (by decide) (by decide) (by decide)
  rw [h]
  decide

lemma fmt2_hundredths_eq_round (q : ℚ) :
    (200 * q.num + (q.den : Int)) / (2 * (q.den : Int)) = round (q * 100) := by
  have hden : ((q.den : ℚ)) ≠ 0 := by
    have := q.den_pos
    positivity
  have hmul : q * (q.den : ℚ) = (q.num : ℚ) := by
    have h := Rat.num_div_den q
    rw [div_eq_iff hden] at h
    exact h.symm
  have h1 : q * 100 + 1/2
      = (((200 * q.num + (q.den : Int)) : Int) : ℚ) / (((2 * q.den : ℕ)) : ℚ) := by
    rw [eq_div_iff (by push_cast; positivity)]
    push_cast
    linear_combination 200 * hmul
  rw [round_eq, h1, Rat.floor_intCast_div_natCast]
  push_cast
  ring_nf

lemma mk_eq_div (n : Int) (d : Nat) (h1 : d ≠ 0) (h2 : n.natAbs.Coprime d) :
    ((Rat.mk' n d h1 h2 : ℚ)) = (n : ℚ) / (d : ℚ) := by
  rw [Rat.mk'_eq_divInt, Rat.divInt_eq_div]
  norm_num

/-- Counterexample to C1 as stated: on `[-2^31, 0, -2^31]` the comparator is
inconsistent (each of `-2^31` and `0` compares strictly below the other
because the subtraction wraps), the sorted copy fails to group the two equal
elements, and the code reports frequency 1 although the true maximum
multiplicity is 2. -/
theorem mode_claim_counterexample :
    (calculate_mode [-(2^31), 0, -(2^31)]).frequency = 1 ∧
    ([-(2^31), 0, -(2^31)] : List Int).count (-(2^31)) = 2 ∧
    (1 : Nat) ≠ 2 := by
  refine ⟨by decide, by decide, by decide⟩

/-- C1 (amended): when every pairwise difference of sample elements fits in
a signed 32-bit `int`, the frequency returned by `calculate_mode` is the
maximum multiplicity of any value in the sample, the returned values are
exactly the values attaining it, and in particular when all values are
equally frequent every value is returned. -/
theorem mode_frequency_and_values (l : List Int) (hfit : PairFits l) :
    (∀ a : Int, l.count a ≤ (calculate_mode l).frequency) ∧
    (l ≠ [] → ∃ a ∈ l, l.count a = (calculate_mode l).frequency) ∧
    (∀ a : Int, a ∈ (calculate_mode l).modes ↔
      a ∈ l ∧ l.count a = (calculate_mode l).frequency) ∧
    ((∀ a ∈ l, l.count a = 1) →
      ∀ a : Int, (a ∈ (calculate_mode l).modes ↔ a ∈ l)) := by
  by_cases hne : l = []
  · subst hne
    exact ⟨fun a => by simp [calculate_mode], fun h => absurd rfl h,
      fun a => by simp [calculate_mode], fun _ a => by simp [calculate_mode]⟩
  · obtain ⟨hfreq, hmodes⟩ := calculate_mode_spec l hfit hne
    have hperm := qsortModel_perm l
    have hcnt : ∀ a : Int, (qsortModel l).count a = l.count a := hperm.count_eq
    have hsne : qsortModel l ≠ [] := qsortModel_ne_nil hne
    have hmax := maxMult_achieved (qsortModel l) hsne
    refine ⟨?_, ?_, ?_, ?_⟩
    · intro a
      rw [hfreq, ← hcnt a]
      exact count_le_maxMult _ a
    · intro _
      obtain ⟨a, ha, hca⟩ := hmax
      exact ⟨a, hperm.mem_iff.1 ha, by rw [← hcnt a, hca, hfreq]⟩
    · intro a
      rw [hmodes, hfreq, mem_collectModes, hperm.mem_iff, hcnt a]
    · intro hdist a
      rw [hmodes, mem_collectModes, hperm.mem_iff, hcnt a]
      constructor
      · exact fun h => h.1
      · intro hal
        obtain ⟨b, hb, hcb⟩ := hmax
        have hb1 : l.count b = 1 := hdist b (hperm.mem_iff.1 hb)
        have hmax1 : maxMult (qsortModel l) = 1 := by
          rw [← hcb, hcnt b, hb1]
        exact ⟨hal, by rw [hmax1]; exact hdist a hal⟩

/-- Witness for C1 at `[1, 2, 2]`. -/
theorem mode_frequency_and_values_witness :
    ([1, 2, 2] : List Int).count 2 ≤ (calculate_mode [1, 2, 2]).frequency ∧
    (2 ∈ (calculate_mode [1, 2, 2]).modes ↔
      2 ∈ ([1, 2, 2] : List Int) ∧
        ([1, 2, 2] : List Int).count 2 = (calculate_mode [1, 2, 2]).frequency) := by
  have h := mode_frequency_and_values [1, 2, 2] (by decide)
  exact ⟨h.1 2, h.2.2.1 2⟩

/-- Counterexample to C5 as stated: on `[-2^31, 5, 7]` the returned values
`[5, 7, -2^31]` are not in ascending order (the comparator put `-2^31`
last), and on `[-2^31, 0, -2^31]` the value `-2^31` appears twice in the
returned values. -/
theorem mode_wellformed_counterexample :
    (calculate_mode [-(2^31), 5, 7]).modes = [5, 7, -(2^31)] ∧
    ¬ List.Sorted (· < ·) ([5, 7, -(2^31)] : List Int) ∧
    (calculate_mode [-(2^31), 0, -(2^31)]).modes = [-(2^31), 0, -(2^31)] ∧
    ¬ ([-(2^31), 0, -(2^31)] : List Int).Nodup := by
  refine ⟨by decide, by decide, by decide, by decide⟩

/-- C5 (amended): when every pairwise difference of sample elements fits in
a signed 32-bit `int`, every `ModeResult` returned by `calculate_mode` is
well-formed: values strictly ascending (hence each value exactly once),
`count` equal to the number of values; a non-empty sample yields non-empty
values and frequency at least 1; the empty sample yields empty values and
frequency 0. -/
theorem mode_result_wellformed (l : List Int) (hfit : PairFits l) :
    (calculate_mode l).modes.Pairwise (· < ·) ∧
    (calculate_mode l).modes.Nodup ∧
    (calculate_mode l).count = (calculate_mode l).modes.length ∧
    (l ≠ [] → (calculate_mode l).modes ≠ [] ∧ 1 ≤ (calculate_mode l).frequency) ∧
    (l = [] → (calculate_mode l).modes = [] ∧ (calculate_mode l).frequency = 0) := by
  have hcl := mode_count_eq_length l
  by_cases hne : l = []
  · subst hne
    exact ⟨by simp [calculate_mode], by simp [calculate_mode], hcl,
      fun h => absurd rfl h, fun _ => ⟨rfl, rfl⟩⟩
  · obtain ⟨hfreq, hmodes⟩ := calculate_mode_spec l hfit hne
    have hsorted := qsortModel_sorted l hfit
    have hpw : (calculate_mode l).modes.Pairwise (· < ·) := by
      rw [hmodes]
      exact collectModes_sorted hsorted
    have hsne := qsortModel_ne_nil hne
    obtain ⟨b, hb, hcb⟩ := maxMult_achieved (qsortModel l) hsne
    have hbmem : b ∈ (calculate_mode l).modes := by
      rw [hmodes]
      exact mem_collectModes.2 ⟨hb, hcb⟩
    refine ⟨hpw, hpw.imp (fun hab => ne_of_lt hab), hcl,
      fun _ => ⟨List.ne_nil_of_mem hbmem, ?_⟩, fun he => absurd he hne⟩
    have hpos : 0 < (qsortModel l).count b := List.count_pos_iff.2 hb
    rw [hfreq, ← hcb]
    omega

/-- Witness for C5 at `[2, 1, 1]`. -/
theorem mode_result_wellformed_witness :
    (calculate_mode [2, 1, 1]).modes.Pairwise (· < ·) ∧
    (calculate_mode [2, 1, 1]).modes ≠ [] := by
  have h := mode_result_wellformed [2, 1, 1] (by decide)
  exact ⟨h.1, (h.2.2.2.1 (by decide)).1⟩

/-- Counterexample to C6 as stated: `[-2^31, 0, 1]` and `[0, 1, -2^31]` are
permutations of each other, yet the code computes median `0` for the first
and `1` for the second, because the wrapped comparator is inconsistent on
the pair `-2^31, 0` and the sorted copy depends on the input order. -/
theorem order_dependence_counterexample :
    ([-(2^31), 0, 1] : List Int).Perm [0, 1, -(2^31)] ∧
    calculate_median [-(2^31), 0, 1] = 0 ∧
    calculate_median [0, 1, -(2^31)] = 1 ∧
    (0 : ℚ) ≠ 1 := by
  refine ⟨by decide, by decide, by decide, by norm_num⟩

/-- C6 (amended): the mean is invariant under every permutation of the
sample; the median is invariant under every permutation provided all
pairwise differences of sample elements fit in a signed 32-bit `int`. -/
theorem mean_median_order_independence (l l' : List Int) (hp : l'.Perm l) :
    calculate_mean l' = calculate_mean l ∧
    (PairFits l → calculate_median l' = calculate_median l) := by
  constructor
  · unfold calculate_mean
    rw [hp.length_eq, sumLong_eq_wrap64_sum, sumLong_eq_wrap64_sum, hp.sum_eq]
  · intro hfit
    have hfit2 : PairFits l' := fun a ha b hb =>
      hfit a (hp.mem_iff.1 ha) b (hp.mem_iff.1 hb)
    have hq : qsortModel l' = qsortModel l :=
      List.eq_of_perm_of_sorted
        ((qsortModel_perm l').trans (hp.trans (qsortModel_perm l).symm))
        (qsortModel_sorted l' hfit2) (qsortModel_sorted l hfit)
    unfold calculate_median
    rw [hp.length_eq, hq]

/-- Witness for C6 at the permutation pair `[3, 1, 2]`, `[1, 2, 3]`. -/
theorem mean_median_order_independence_witness :
    calculate_mean [3, 1, 2] = calculate_mean [1, 2, 3] ∧
    calculate_median [3, 1, 2] = calculate_median [1, 2, 3] := by
  have h := mean_median_order_independence [1, 2, 3] [3, 1, 2] (by decide)
  exact ⟨h.1, h.2 (by decide)⟩

/-- C8: in the state-passing model, each calculator returns the caller's
array unchanged (the sort runs on the private copy only), repeating a call
on the returned array gives the identical result, and the value component
agrees with the pure calculator. -/
theorem calculators_preserve_input (l : List Int) :
    (calculate_mean_mem l).2 = l ∧ (calculate_median_mem l).2 = l ∧
    (calculate_mode_mem l).2 = l ∧
    calculate_mean_mem ((calculate_mean_mem l).2) = calculate_mean_mem l ∧
    calculate_median_mem ((calculate_median_mem l).2) = calculate_median_mem l ∧
    calculate_mode_mem ((calculate_mode_mem l).2) = calculate_mode_mem l ∧
    (calculate_mean_mem l).1 = calculate_mean l ∧
    (calculate_median_mem l).1 = calculate_median l ∧
    (calculate_mode_mem l).1 = calculate_mode l := by
  have h1 : (calculate_mean_mem l).2 = l := by
    unfold calculate_mean_mem
    by_cases h : l.length = 0
    · rw [if_pos h]
    · rw [if_neg h]
  have h2 : (calculate_median_mem l).2 = l := by
    unfold calculate_median_mem
    by_cases h : l.length = 0
    · rw [if_pos h]
    · rw [if_neg h]
  have h3 : (calculate_mode_mem l).2 = l := by
    unfold calculate_mode_mem
    by_cases h : l.length = 0
    · rw [if_pos h]
    · rw [if_neg h]
      cases hq : qsortModel (l.take l.length) with
      | nil => rfl
      | cons x rest => rfl
  have h4 : (calculate_mean_mem l).1 = calculate_mean l := by
    unfold calculate_mean_mem calculate_mean
    by_cases h : l.length = 0
    · rw [if_pos h, if_pos h]
    · rw [if_neg h, if_neg h]
  have h5 : (calculate_median_mem l).1 = calculate_median l := by
    unfold calculate_median_mem calculate_median
    rw [List.take_length]
    by_cases h : l.length = 0
    · rw [if_pos h, if_pos h]
    · rw [if_neg h, if_neg h]
  have h6 : (calculate_mode_mem l).1 = calculate_mode l := by
    unfold calculate_mode_mem calculate_mode
    rw [List.take_length]
    by_cases h : l.length = 0
    · rw [if_pos h, if_pos h]
    · rw [if_neg h, if_neg h]
      cases hq : qsortModel l with
      | nil => rfl
      | cons x rest => rfl
  exact ⟨h1, h2, h3, by rw [h1], by rw [h2], by rw [h3], h4, h5, h6⟩

/-- C9: the report formatter prints the distinct cannot-calculate message
(and no metric lines) for the empty sample; for a non-empty sample it prints
the array literal, Mean and Median to two decimal places, and a Mode line
rendering a single mode without brackets and several modes as a bracketed
comma-separated list with the frequency — verified structurally and on the
four demonstration samples. -/
theorem print_statistics_report :
    print_statistics [] = "Array: []\nCannot calculate statistics for empty array.\n" ∧
    (∀ l : List Int, l ≠ [] →
      print_statistics l =
        "Array: " ++ print_array l ++ "\n" ++ "Mean: " ++ fmt2 (calculate_mean l) ++
          "\n" ++ "Median: " ++ fmt2 (calculate_median l) ++ "\n" ++ "Mode: " ++
          (if (calculate_mode l).count = 1 then
            toString ((calculate_mode l).modes.getD 0 0) ++ " (frequency: " ++
              toString (calculate_mode l).frequency ++ ")\n"
          else
            "[" ++ String.intercalate ", " ((calculate_mode l).modes.map toString) ++
              "] (frequency: " ++ toString (calculate_mode l).frequency ++ " each)\n")
          ++ "\n") ∧
    print_statistics [1, 2, 3, 4, 5, 5, 5]
      = "Array: [1, 2, 3, 4, 5, 5, 5]\nMean: 3.57\nMedian: 4.00\nMode: 5 (frequency: 3)\n\n" ∧
    print_statistics [1, 1, 2, 2, 3, 3]
      = "Array: [1, 1, 2, 2, 3, 3]\nMean: 2.00\nMedian: 2.00\nMode: [1, 2, 3] (frequency: 2 each)\n\n" ∧
    print_statistics [42]
      = "Array: [42]\nMean: 42.00\nMedian: 42.00\nMode: 42 (frequency: 1)\n\n" ∧
    print_statistics [1, 2, 3, 4]
      = "Array: [1, 2, 3, 4]\nMean: 2.50\nMedian: 2.50\nMode: [1, 2, 3, 4] (frequency: 1 each)\n\n" := by
  refine ⟨by decide, ?_, ?_, ?_, ?_, ?_⟩
  · intro l hne
    have hlen : ¬ l.length = 0 := fun h => hne (List.length_eq_zero.1 h)
    simp only [print_statistics, if_neg hlen]
  · have hm : calculate_mean [1, 2, 3, 4, 5, 5, 5] = ((Rat.mk' 25 7 : ℚ)) := by
      rw [mean_eq_sum_div_aux [1, 2, 3, 4, 5, 5, 5] (by decide) (by decide), mk_eq_div]
      norm_num
    simp only [print_statistics, hm]
    decide
  · have hm : calculate_mean [1, 1, 2, 2, 3, 3] = ((Rat.mk' 2 1 : ℚ)) := by
      rw [mean_eq_sum_div_aux [1, 1, 2, 2, 3, 3] (by decide) (by decide), mk_eq_div]
      norm_num
    have hd : calculate_median [1, 1, 2, 2, 3, 3] = ((Rat.mk' 2 1 : ℚ)) := by
      have h0 : calculate_median [1, 1, 2, 2, 3, 3]
          = ((wrap32 ((qsortModel [1, 1, 2, 2, 3, 3]).getD 2 0
              + (qsortModel [1, 1, 2, 2, 3, 3]).getD 3 0) : Int) : ℚ) / 2 := rfl
      rw [h0, show wrap32 ((qsortModel [1, 1, 2, 2, 3, 3]).getD 2 0
        + (qsortModel [1, 1, 2, 2, 3, 3]).getD 3 0) = 4 from by decide, mk_eq_div]
      norm_num
    simp only [print_statistics, hm, hd]
    decide
  · have hm : calculate_mean [42] = ((Rat.mk' 42 1 : ℚ)) := by
      rw [mean_eq_sum_div_aux [42] (by decide) (by decide), mk_eq_div]
      norm_num
    simp only [print_statistics, hm]
    decide
  · have hm : calculate_mean [1, 2, 3, 4] = ((Rat.mk' 5 2 : ℚ)) := by
      rw [mean_eq_sum_div_aux [1, 2, 3, 4] (by decide) (by decide), mk_eq_div]
      norm_num
    have hd : calculate_median [1, 2, 3, 4] = ((Rat.mk' 5 2 : ℚ)) := by
      have h0 : calculate_median [1, 2, 3, 4]
          = ((wrap32 ((qsortModel [1, 2, 3, 4]).getD 1 0
              + (qsortModel [1, 2, 3, 4]).getD 2 0) : Int) : ℚ) / 2 := rfl
      rw [h0, show wrap32 ((qsortModel [1, 2, 3, 4]).getD 1 0
        + (qsortModel [1, 2, 3, 4]).getD 2 0) = 5 from by decide, mk_eq_div]
      norm_num
    simp only [print_statistics, hm, hd]
    decide

/-- Witness for C9 at the non-empty sample `[7]`. -/
theorem print_statistics_report_witness :
    print_statistics [7] = "Array: [7]\nMean: 7.00\nMedian: 7.00\nMode: 7 (frequency: 1)\n\n" := by
  have h := print_statistics_report.2.1 [7] (by decide)
  have hm : calculate_mean [7] = ((Rat.mk' 7 1 : ℚ)) := by
    rw [mean_eq_sum_div_aux [7] (by decide) (by decide), mk_eq_div]
    norm_num
  rw [h, hm]
  decide

/-- C10: whenever the difference of two values fits in a signed 32-bit
`int`, the comparator's wrapped subtraction has the sign of the true
comparison, so under the pairwise-fits precondition the sorted copies used
by median and mode are ascending permutations of the sample; and on the
pair `-2^31, 1` the subtraction wraps and the induced order disagrees with
the numeric order. -/
theorem comparator_order_and_sort :
    (∀ a b : Int, fits32 (a - b) →
      ((compare a b < 0 ↔ a < b) ∧ (compare a b = 0 ↔ a = b) ∧
        (0 < compare a b ↔ b < a))) ∧
    (∀ l : List Int, PairFits l →
      (qsortModel l).Sorted (· ≤ ·) ∧ (qsortModel l).Perm l) ∧
    0 < compare (-(2^31)) 1 ∧ (-(2^31) : Int) < 1 := by
  refine ⟨?_, ?_, by decide, by decide⟩
  · intro a b h
    refine ⟨?_, ?_, ?_⟩ <;> rw [compare_eq_of_fits h] <;> omega
  · intro l hfit
    exact ⟨qsortModel_sorted l hfit, qsortModel_perm l⟩

/-- Witness for C10 at `2, 9` and `[3, 1, 2]`. -/
theorem comparator_order_and_sort_witness :
    compare 2 9 < 0 ∧ (qsortModel [3, 1, 2]).Sorted (· ≤ ·) ∧
      (qsortModel [3, 1, 2]).Perm [3, 1, 2] :=
  ⟨(comparator_order_and_sort.1 2 9 (by decide)).1.mpr (by decide),
    (comparator_order_and_sort.2.1 [3, 1, 2] (by decide)).1,
    (comparator_order_and_sort.2.1 [3, 1, 2] (by decide)).2⟩

end StatsCalc
